import Mathlib

/-!
Verification of the remote-object protocol layer around `ElectronApplication`
(client class in the repository source) against its natural-language
specification.

The repository source provides `ElectronApplication` (constructor, `_onPage`,
`windows`, `firstWindow`, `close`, `waitForEvent`).  The `Waiter`,
`TimeoutSettings` and `isTargetClosedError` helpers it calls are declared in
files not included here; those are modelled from the specification (§4.3
Waiter, §4.5 Timeout Resolver, §7 error taxonomy) and are marked as such in
their doc comments.  Everything else is translated directly from the source.
-/

/-- Error taxonomy of §7. `targetClosedError` mirrors `TargetClosedError`;
`otherError` stands for any other error value crossing the boundary. -/
inductive PwError : Type where
  | targetClosedError : PwError
  | otherError : Nat → PwError
deriving DecidableEq

/-- Modelled from the spec: `isTargetClosedError` (imported from `./errors`,
not in the shown source) recognises exactly the `TargetClosedError` kind. -/
def isTargetClosedError : PwError → Bool
  | .targetClosedError => true
  | .otherError _ => false

/-- A dispatched event: a timestamp in milliseconds, the target object it is
delivered on, the logical event name, and its payload. -/
structure DEvent (π : Type) : Type where
  time : Nat
  tgt : Nat
  name : String
  payload : π

/-- Outcome error of a Waiter: deadline expiry carrying the elapsed bound
(§4.3 "fulfills the wait with a `TimeoutError` carrying the elapsed bound"),
or an error built by a reject-binding's exception factory. -/
inductive WaiterError (ε : Type) : Type where
  | timeoutError : Nat → WaiterError ε
  | factoryError : ε → WaiterError ε

/-- Final outcome of a Waiter, with the time at which it was fixed. -/
inductive WOutcome (π ε : Type) : Type where
  | resolved : π → Nat → WOutcome π ε
  | rejected : WaiterError ε → Nat → WOutcome π ε

/-- Modelled from the spec (§4.3): an event binding of a Waiter — a
resolve-binding (object, event name, predicate over the payload) or a
reject-binding (object, event name, exception factory value). -/
inductive Binding (π ε : Type) : Type where
  | resolveB : Nat → String → (π → Bool) → Binding π ε
  | rejectB : Nat → String → ε → Binding π ε

/-- Modelled from the spec (§4.3): whether a binding fires on an event.  A
resolve-binding fires when object and name match and its predicate accepts the
payload; a reject-binding "fires unconditionally on event occurrence (no
predicate)". -/
def fires {π ε : Type} : Binding π ε → DEvent π → Bool
  | .resolveB t n p, ev => t == ev.tgt && n == ev.name && p ev.payload
  | .rejectB t n _, ev => t == ev.tgt && n == ev.name

/-- Modelled from the spec (§4.3): the state of a Waiter — its live bindings,
its optional deadline, and its outcome (`none` while outstanding). -/
structure WaiterState (π ε : Type) : Type where
  bindings : List (Binding π ε)
  deadline : Option Nat
  outcome : Option (WOutcome π ε)

/-- Modelled from the spec (§4.3): finalization fixes the outcome and tears
down all bindings atomically at that instant. -/
def finalizeWaiter {π ε : Type} (s : WaiterState π ε) (o : WOutcome π ε) :
    WaiterState π ε :=
  { bindings := [], deadline := s.deadline, outcome := some o }

/-- Modelled from the spec (§4.3): reaction of a Waiter still outstanding to
one dispatched event, ignoring the deadline.  "The first binding whose
predicate (if any) matches determines the outcome": the first firing binding
in registration order resolves with the event's payload or rejects with the
factory's error; if none fires the Waiter is unchanged. -/
def dispatchCore {π ε : Type} (s : WaiterState π ε) (ev : DEvent π) :
    WaiterState π ε :=
  match s.bindings.find? (fun b => fires b ev) with
  | some (.resolveB _ _ _) => finalizeWaiter s (.resolved ev.payload ev.time)
  | some (.rejectB _ _ e) =>
      finalizeWaiter s (.rejected (.factoryError e) ev.time)
  | none => s

/-- Modelled from the spec (§4.3): full reaction of a Waiter to one dispatched
event.  "Only one outcome per Waiter; repeated firings after finalization are
ignored"; "deadline expiry (if set) fulfills the wait with a `TimeoutError`
carrying the elapsed bound", so an event arriving at or past the deadline
finds the wait already timed out. -/
def dispatchEvent {π ε : Type} (s : WaiterState π ε) (ev : DEvent π) :
    WaiterState π ε :=
  match s.outcome with
  | some _ => s
  | none =>
    match s.deadline with
    | some d =>
        if d ≤ ev.time then
          finalizeWaiter s (.rejected (.timeoutError d) d)
        else dispatchCore s ev
    | none => dispatchCore s ev

/-- Runs a Waiter over a trace of dispatched events, in arrival order. -/
def runWaiter {π ε : Type} (s : WaiterState π ε) (tr : List (DEvent π)) :
    WaiterState π ε :=
  tr.foldl dispatchEvent s

/-- Runs a Waiter over a trace and then lets time advance to `endTime`: if
still outstanding and the deadline has passed, the wait rejects with the
`TimeoutError` at the deadline. -/
def settle {π ε : Type} (s : WaiterState π ε) (tr : List (DEvent π))
    (endTime : Nat) : WaiterState π ε :=
  let s2 := runWaiter s tr
  match s2.outcome, s2.deadline with
  | none, some d =>
      if d ≤ endTime then finalizeWaiter s2 (.rejected (.timeoutError d) d)
      else s2
  | _, _ => s2

/-- An event is inert for a Waiter when it arrives before the deadline (if
any) and fires none of the Waiter's bindings. -/
def inert {π ε : Type} (s : WaiterState π ε) (e : DEvent π) : Prop :=
  (∀ d, s.deadline = some d → e.time < d) ∧
    s.bindings.find? (fun b => fires b e) = none

/-- Modelled from the spec (§4.5): timeout-settings state — the process-wide
default and the per-object default (settable, absent when never set). -/
structure TimeoutSettings : Type where
  processDefault : Nat
  objectDefault : Option Nat

/-- Modelled from the spec (§4.5): the per-object default is inherited from
the session default at object creation. -/
def TimeoutSettings.create (processDefault : Nat)
    (sessionDefault : Option Nat) : TimeoutSettings :=
  { processDefault := processDefault, objectDefault := sessionDefault }

/-- Modelled from the spec (§4.5): effective-timeout resolution — "precedence
is explicit per-call override, else a per-object default ..., else the
process-wide default (0/unset meaning no timeout)"; a value of 0 at any level
short-circuits lookup of lower-precedence levels. -/
def TimeoutSettings.timeout (s : TimeoutSettings) (callOverride : Option Nat) :
    Nat :=
  match callOverride with
  | some t => t
  | none =>
    match s.objectDefault with
    | some t => t
    | none => s.processDefault

/-- Modelled from the spec (§4.5 "Must be pure and side-effect-free"): the
timeout resolution viewed as a call on the settings state, returning the
resolved milliseconds and the post-call state. -/
def TimeoutSettings.timeoutCall (s : TimeoutSettings)
    (callOverride : Option Nat) : Nat × TimeoutSettings :=
  (s.timeout callOverride, s)

namespace ElectronApplication

/-- Event name `Events.ElectronApplication.Close` used by `waitForEvent`. -/
def closeEventName : String := "close"

/-- The `this` object the bindings of `waitForEvent` are registered on. -/
def selfTarget : Nat := 0

/-- Translated from `ElectronApplication.waitForEvent` in the source: the
Waiter it configures.  `timeoutMs` is the effective timeout already resolved
by `this._timeoutSettings.timeout(...)`.  The calls translate as:
`Waiter.createForEvent(this, event)` then `waiter.rejectOnTimeout(timeout, …)`
(modelled from the spec: a 0 timeout means no deadline), then — only when
`event` is not the close event — `waiter.rejectOnEvent(this, Close, () => new
TargetClosedError())`, and finally `waiter.waitForEvent(this, event,
predicate)`, which registers the resolve-binding after the reject-binding. -/
def waitForEventWaiter {π : Type} (event : String) (pred : π → Bool)
    (timeoutMs : Nat) : WaiterState π PwError :=
  { bindings :=
      (if event = closeEventName then []
       else [Binding.rejectB selfTarget closeEventName
              PwError.targetClosedError])
      ++ [Binding.resolveB selfTarget event pred],
    deadline := if timeoutMs = 0 then none else some timeoutMs,
    outcome := none }

/-- Translated from `ElectronApplication.waitForEvent` in the source: the
control flow around the Waiter, run over an event trace up to `endTime`.
The body is `const result = await waiter.waitForEvent(...); waiter.dispose();
return result;` — when the awaited promise resolves, the explicit
`waiter.dispose()` runs (third component `true`) and the result is returned;
when it rejects, the `await` throws and control leaves the function without
reaching the `waiter.dispose()` statement (third component `false`).  The
second component is the Waiter's final state; `none` means the wait has not
finished within the trace, so no exit path was taken. -/
def waitForEventRun {π : Type} (event : String) (pred : π → Bool)
    (timeoutMs : Nat) (tr : List (DEvent π)) (endTime : Nat) :
    Option (Except (WaiterError PwError) π × WaiterState π PwError × Bool) :=
  let w := settle (waitForEventWaiter event pred timeoutMs) tr endTime
  match w.outcome with
  | some (.resolved pay _) => some (.ok pay, { w with bindings := [] }, true)
  | some (.rejected err _) => some (.error err, w, false)
  | none => none

/-- Translated from `ElectronApplication.close` in the source:
`try { await this._context.close(); } catch (e) { if (isTargetClosedError(e))
return; throw e; }`, as a function of the context-close outcome. -/
def closeRun (contextClose : Except PwError Unit) : Except PwError Unit :=
  match contextClose with
  | .ok _ => .ok ()
  | .error e => if isTargetClosedError e then .ok () else .error e

/-- Observable inputs of the window bookkeeping: a page announced to the
application (present in `context._pages` at construction, or delivered by the
context's `page` event), or a page emitting its `close` event. -/
inductive CtxEvent : Type where
  | pageAnnounced : Nat → CtxEvent
  | pageClosed : Nat → CtxEvent

/-- State kept by the application: the `_windows` set (a JS `Set`, iterated in
insertion order, so a list without duplicates) and the log of emitted
`window` events. -/
structure AppState : Type where
  windows : List Nat
  windowEvents : List Nat

/-- JS `Set.prototype.add`: appends when absent, leaves the set (and the
insertion order) unchanged when present. -/
def setAdd (l : List Nat) (p : Nat) : List Nat :=
  if l.contains p then l else l ++ [p]

/-- Translated from `ElectronApplication._onPage` in the source:
`this._windows.add(page); this.emit(Window, page);
page.once(Page.Close, () => this._windows.delete(page));` — the once-handler
registration is modelled by `stepApp` reacting to the page's close event. -/
def onPage (s : AppState) (p : Nat) : AppState :=
  { windows := setAdd s.windows p, windowEvents := s.windowEvents ++ [p] }

/-- One step of the application's reaction to a context event: an announced
page goes through `_onPage`; a page's close event runs the once-handler
`() => this._windows.delete(page)` registered in `_onPage` (JS `Set.delete`
removes the single occurrence, a no-op when absent). -/
def stepApp (s : AppState) : CtxEvent → AppState
  | .pageAnnounced p => onPage s p
  | .pageClosed p => { s with windows := s.windows.erase p }

/-- Translated from the constructor in the source:
`for (const page of this._context._pages) this._onPage(page);`. -/
def ctorState (initialPages : List Nat) : AppState :=
  initialPages.foldl onPage ⟨[], []⟩

/-- The application state after construction with `initialPages` and
processing the context-event trace `tr` in order. -/
def runApp (initialPages : List Nat) (tr : List CtxEvent) : AppState :=
  tr.foldl stepApp (ctorState initialPages)

/-- Result of `firstWindow`: an immediately returned page, or delegation to
`waitForEvent` with the given event name and options. -/
inductive FirstWindowResult : Type where
  | immediate : Nat → FirstWindowResult
  | delegated : String → Option Nat → FirstWindowResult

/-- Translated from `ElectronApplication.firstWindow` in the source:
`if (this._windows.size) return this._windows.values().next().value!;
return await this.waitForEvent('window', options);` — `values().next().value`
is the first element in insertion order. -/
def firstWindow (s : AppState) (options : Option Nat) : FirstWindowResult :=
  match s.windows with
  | p :: _ => .immediate p
  | [] => .delegated "window" options

/-- Pages announced in a context-event trace, in order. -/
def announcesOf (tr : List CtxEvent) : List Nat :=
  tr.filterMap (fun e => match e with
    | .pageAnnounced p => some p
    | .pageClosed _ => none)

/-- All pages announced to the application: the initial pages followed by the
pages delivered through the context's `page` event. -/
def announcedList (initialPages : List Nat) (tr : List CtxEvent) : List Nat :=
  initialPages ++ announcesOf tr

/-- Whether the trace contains a close event for page `p`. -/
def closedIn (tr : List CtxEvent) (p : Nat) : Bool :=
  tr.any (fun e => match e with
    | .pageClosed q => q == p
    | .pageAnnounced _ => false)

/-- Well-formedness of a context-event trace relative to the already-announced
pages `ann`: each announced page is fresh (the context announces a page once),
and a page can close only after being announced. -/
def wfTrace (ann : List Nat) : List CtxEvent → Bool
  | [] => true
  | .pageAnnounced p :: rest => !ann.contains p && wfTrace (ann ++ [p]) rest
  | .pageClosed p :: rest => ann.contains p && wfTrace ann rest

end ElectronApplication

section WaiterLemmas

variable {π ε : Type}

lemma dispatchEvent_finalized {s : WaiterState π ε} {o : WOutcome π ε}
    (h : s.outcome = some o) (ev : DEvent π) : dispatchEvent s ev = s := by
  unfold dispatchEvent
  rw [h]

lemma runWaiter_finalized {s : WaiterState π ε} {o : WOutcome π ε}
    (h : s.outcome = some o) : ∀ tr, runWaiter s tr = s := by
  intro tr
  induction tr with
  | nil => rfl
  | cons e rest ih =>
      show runWaiter (dispatchEvent s e) rest = s
      rw [dispatchEvent_finalized h]
      exact ih

lemma runWaiter_append (s : WaiterState π ε) (t1 t2 : List (DEvent π)) :
    runWaiter s (t1 ++ t2) = runWaiter (runWaiter s t1) t2 :=
  List.foldl_append dispatchEvent s t1 t2

lemma finalizeWaiter_bindings (s : WaiterState π ε) (o : WOutcome π ε) :
    (finalizeWaiter s o).bindings = [] := rfl

lemma dispatchCore_not_firing {s : WaiterState π ε} {ev : DEvent π}
    (hf : s.bindings.find? (fun b => fires b ev) = none) :
    dispatchCore s ev = s := by
  unfold dispatchCore
  rw [hf]

lemma dispatchCore_sealed {s : WaiterState π ε} (h0 : s.outcome = none)
    (ev : DEvent π) :
    (dispatchCore s ev).outcome.isSome → (dispatchCore s ev).bindings = [] := by
  unfold dispatchCore
  cases hf : s.bindings.find? (fun b => fires b ev) with
  | none =>
      intro h
      rw [h0] at h
      simp at h
  | some b => cases b <;> intro _ <;> rfl

lemma dispatchEvent_sealed {s : WaiterState π ε}
    (hs : s.outcome.isSome → s.bindings = []) (ev : DEvent π) :
    (dispatchEvent s ev).outcome.isSome → (dispatchEvent s ev).bindings = [] := by
  cases ho : s.outcome with
  | some o =>
      rw [dispatchEvent_finalized ho]
      exact hs
  | none =>
      unfold dispatchEvent
      rw [ho]
      cases hd : s.deadline with
      | none => exact dispatchCore_sealed ho ev
      | some d =>
          dsimp only
          by_cases hle : d ≤ ev.time
          · rw [if_pos hle]
            intro _
            rfl
          · rw [if_neg hle]
            exact dispatchCore_sealed ho ev

lemma runWaiter_sealed {s : WaiterState π ε}
    (hs : s.outcome.isSome → s.bindings = []) :
    ∀ tr, (runWaiter s tr).outcome.isSome → (runWaiter s tr).bindings = [] := by
  intro tr
  induction tr generalizing s with
  | nil => exact hs
  | cons e rest ih =>
      show (runWaiter (dispatchEvent s e) rest).outcome.isSome →
        (runWaiter (dispatchEvent s e) rest).bindings = []
      exact ih (dispatchEvent_sealed hs e)

lemma dispatchEvent_inert {s : WaiterState π ε} {e : DEvent π}
    (h0 : s.outcome = none) (hi : inert s e) : dispatchEvent s e = s := by
  unfold dispatchEvent
  rw [h0]
  cases hd : s.deadline with
  | none => exact dispatchCore_not_firing hi.2
  | some d =>
      dsimp only
      rw [if_neg (Nat.not_le.mpr (hi.1 d hd))]
      exact dispatchCore_not_firing hi.2

lemma runWaiter_inert {s : WaiterState π ε} {pre : List (DEvent π)}
    (h0 : s.outcome = none) (hpre : ∀ e ∈ pre, inert s e) :
    runWaiter s pre = s := by
  induction pre with
  | nil => rfl
  | cons e rest ih =>
      show runWaiter (dispatchEvent s e) rest = s
      rw [dispatchEvent_inert h0 (hpre e (by simp))]
      exact ih (fun e' he' => hpre e' (by simp [he']))

lemma dispatchEvent_before_deadline {s : WaiterState π ε} {ev : DEvent π}
    (h0 : s.outcome = none) (hdl : ∀ d, s.deadline = some d → ev.time < d) :
    dispatchEvent s ev = dispatchCore s ev := by
  unfold dispatchEvent
  rw [h0]
  cases hd : s.deadline with
  | none => rfl
  | some d =>
      dsimp only
      rw [if_neg (Nat.not_le.mpr (hdl d hd))]

lemma runWaiter_first_reject {s : WaiterState π ε} {pre post : List (DEvent π)}
    {ev : DEvent π} {tgt : Nat} {nm : String} {err : ε}
    (h0 : s.outcome = none) (hpre : ∀ e ∈ pre, inert s e)
    (hdl : ∀ d, s.deadline = some d → ev.time < d)
    (hfind : s.bindings.find? (fun b => fires b ev)
      = some (.rejectB tgt nm err)) :
    runWaiter s (pre ++ ev :: post)
      = finalizeWaiter s (.rejected (.factoryError err) ev.time) := by
  rw [runWaiter_append, runWaiter_inert h0 hpre]
  show runWaiter (dispatchEvent s ev) post = _
  rw [dispatchEvent_before_deadline h0 hdl]
  have hcore : dispatchCore s ev
      = finalizeWaiter s (.rejected (.factoryError err) ev.time) := by
    unfold dispatchCore
    rw [hfind]
  rw [hcore]
  exact runWaiter_finalized rfl post

lemma runWaiter_first_resolve {s : WaiterState π ε} {pre post : List (DEvent π)}
    {ev : DEvent π} {tgt : Nat} {nm : String} {pr : π → Bool}
    (h0 : s.outcome = none) (hpre : ∀ e ∈ pre, inert s e)
    (hdl : ∀ d, s.deadline = some d → ev.time < d)
    (hfind : s.bindings.find? (fun b => fires b ev)
      = some (.resolveB tgt nm pr)) :
    runWaiter s (pre ++ ev :: post)
      = finalizeWaiter s (.resolved ev.payload ev.time) := by
  rw [runWaiter_append, runWaiter_inert h0 hpre]
  show runWaiter (dispatchEvent s ev) post = _
  rw [dispatchEvent_before_deadline h0 hdl]
  have hcore : dispatchCore s ev
      = finalizeWaiter s (.resolved ev.payload ev.time) := by
    unfold dispatchCore
    rw [hfind]
  rw [hcore]
  exact runWaiter_finalized rfl post

lemma runWaiter_nonfiring {s : WaiterState π ε} {d : Nat}
    (h0 : s.outcome = none) (hd : s.deadline = some d) :
    ∀ tr, (∀ e ∈ tr, s.bindings.find? (fun b => fires b e) = none) →
      runWaiter s tr = s ∨
        runWaiter s tr = finalizeWaiter s (.rejected (.timeoutError d) d) := by
  intro tr
  induction tr with
  | nil => intro _; left; rfl
  | cons e rest ih =>
      intro hnf
      have hstep : runWaiter s (e :: rest) = runWaiter (dispatchEvent s e) rest :=
        rfl
      rw [hstep]
      by_cases hle : d ≤ e.time
      · right
        have hde : dispatchEvent s e
            = finalizeWaiter s (.rejected (.timeoutError d) d) := by
          unfold dispatchEvent
          rw [h0, hd]
          dsimp only
          rw [if_pos hle]
        rw [hde]
        exact runWaiter_finalized rfl rest
      · have hde : dispatchEvent s e = s := by
          refine dispatchEvent_inert h0 ⟨?_, hnf e (by simp)⟩
          intro d' hd'
          rw [hd] at hd'
          cases hd'
          exact Nat.lt_of_not_le hle
        rw [hde]
        exact ih (fun e' he' => hnf e' (by simp [he']))

lemma settle_finalized {s : WaiterState π ε} {tr : List (DEvent π)}
    {endTime : Nat} {o : WOutcome π ε}
    (h : (runWaiter s tr).outcome = some o) :
    settle s tr endTime = runWaiter s tr := by
  unfold settle
  dsimp only
  rw [h]

lemma settle_sealed {s : WaiterState π ε}
    (hs : s.outcome.isSome → s.bindings = []) (tr : List (DEvent π))
    (endTime : Nat) :
    (settle s tr endTime).outcome.isSome →
      (settle s tr endTime).bindings = [] := by
  unfold settle
  dsimp only
  cases ho : (runWaiter s tr).outcome with
  | some o =>
      rw [ho]
      dsimp only
      intro _
      exact runWaiter_sealed hs tr (by rw [ho]; rfl)
  | none =>
      cases hdl : (runWaiter s tr).deadline with
      | none =>
          dsimp only
          intro h
          rw [ho] at h
          simp at h
      | some d =>
          dsimp only
          by_cases hle : d ≤ endTime
          · rw [if_pos hle]
            intro _
            rfl
          · rw [if_neg hle]
            intro h
            rw [ho] at h
            simp at h

end WaiterLemmas

/-- C1: every Waiter resolves or rejects exactly once — once a run over a
trace has fixed an outcome, all event bindings have been torn down, and
processing any further events leaves the Waiter's state, and hence the
delivered outcome, unchanged. -/
theorem C1_waiter_one_shot {π ε : Type} (s : WaiterState π ε)
    (o : WOutcome π ε) (tr1 tr2 : List (DEvent π))
    (h0 : s.outcome = none) (hfin : (runWaiter s tr1).outcome = some o) :
    runWaiter s (tr1 ++ tr2) = runWaiter s tr1 ∧
      (runWaiter s tr1).bindings = [] := by
  constructor
  · rw [runWaiter_append]
    exact runWaiter_finalized hfin tr2
  · exact runWaiter_sealed (fun h => by rw [h0] at h; simp at h) tr1
      (by rw [hfin]; rfl)

/-- Witness for C1: a Waiter resolved by the first event ignores a second
firing of the same event. -/
theorem C1_waiter_one_shot_witness :
    runWaiter (⟨[Binding.resolveB 0 "ev" (fun _ => true)], none, none⟩ :
        WaiterState Nat Nat) ([⟨1, 0, "ev", 7⟩] ++ [⟨2, 0, "ev", 8⟩])
      = runWaiter ⟨[Binding.resolveB 0 "ev" (fun _ => true)], none, none⟩
          [⟨1, 0, "ev", 7⟩] ∧
      (runWaiter (⟨[Binding.resolveB 0 "ev" (fun _ => true)], none, none⟩ :
        WaiterState Nat Nat) [⟨1, 0, "ev", 7⟩]).bindings = [] :=
  C1_waiter_one_shot ⟨[Binding.resolveB 0 "ev" (fun _ => true)], none, none⟩
    (.resolved 7 1) [⟨1, 0, "ev", 7⟩] [⟨2, 0, "ev", 8⟩] rfl rfl

/-- C2: for a Waiter with resolve- and reject-bindings, the first bound event
that fires determines the outcome: when an event firing a reject-binding is
dispatched after only inert events (in particular before any matching resolve
event) and before the deadline, the Waiter rejects with the
factory-constructed error, and no resolution occurs even if a matching
resolve event arrives afterwards (`post` is arbitrary). -/
theorem C2_first_reject_wins {π ε : Type} (s : WaiterState π ε)
    (pre post : List (DEvent π)) (ev : DEvent π) (tgt : Nat) (nm : String)
    (err : ε) (h0 : s.outcome = none) (hpre : ∀ e ∈ pre, inert s e)
    (hdl : ∀ d, s.deadline = some d → ev.time < d)
    (hfind : s.bindings.find? (fun b => fires b ev)
      = some (.rejectB tgt nm err)) :
    (runWaiter s (pre ++ ev :: post)).outcome
      = some (.rejected (.factoryError err) ev.time) := by
  rw [runWaiter_first_reject h0 hpre hdl hfind]
  rfl

/-- Witness for C2: `"closed"` dispatched before `"data"` rejects the Waiter
with the factory's error even though `"data"` arrives afterwards. -/
theorem C2_first_reject_wins_witness :
    (runWaiter (⟨[Binding.rejectB 0 "closed" 9,
          Binding.resolveB 0 "data" (fun _ => true)], none, none⟩ :
        WaiterState Nat Nat)
        ([] ++ ⟨5, 0, "closed", 0⟩ :: [⟨6, 0, "data", 1⟩])).outcome
      = some (.rejected (.factoryError 9) 5) :=
  C2_first_reject_wins
    ⟨[Binding.rejectB 0 "closed" 9,
      Binding.resolveB 0 "data" (fun _ => true)], none, none⟩
    [] [⟨6, 0, "data", 1⟩] ⟨5, 0, "closed", 0⟩ 0 "closed" 9
    rfl (by simp) (fun d h => Option.noConfusion h) rfl

/-- C3: for every Waiter with deadline `d`: a matching resolve event
dispatched before the deadline (after only inert events) resolves the wait
with that event's payload, for any end of observation — so no `TimeoutError`
fires afterwards; and if no bound event fires, once time reaches the deadline
the wait rejects with a `TimeoutError` carrying the elapsed bound `d`, at
time `d` (hence no earlier than the deadline), and never resolves. -/
theorem C3_deadline_behavior {π ε : Type} (s : WaiterState π ε) (d : Nat)
    (hd : s.deadline = some d) (h0 : s.outcome = none) :
    (∀ (pre post : List (DEvent π)) (ev : DEvent π) (endTime tgt : Nat)
        (nm : String) (pr : π → Bool),
        (∀ e ∈ pre, inert s e) → ev.time < d →
        s.bindings.find? (fun b => fires b ev) = some (.resolveB tgt nm pr) →
        (settle s (pre ++ ev :: post) endTime).outcome
          = some (.resolved ev.payload ev.time))
    ∧ (∀ (tr : List (DEvent π)) (endTime : Nat),
        (∀ e ∈ tr, s.bindings.find? (fun b => fires b e) = none) →
        d ≤ endTime →
        (settle s tr endTime).outcome
          = some (.rejected (.timeoutError d) d)) := by
  constructor
  · intro pre post ev endTime tgt nm pr hpre hlt hfind
    have hdl : ∀ d', s.deadline = some d' → ev.time < d' := by
      intro d' hd'
      rw [hd] at hd'
      cases hd'
      exact hlt
    have hrun := @runWaiter_first_resolve π ε s pre post ev tgt nm pr
      h0 hpre hdl hfind
    rw [settle_finalized (by rw [hrun]; rfl), hrun]
    rfl
  · intro tr endTime hnf hle
    rcases runWaiter_nonfiring h0 hd tr hnf with hcase | hcase
    · unfold settle
      dsimp only
      rw [hcase, h0, hd]
      dsimp only
      rw [if_pos hle]
      rfl
    · rw [settle_finalized (by rw [hcase]; rfl), hcase]
      rfl

/-- Witness for C3: a Waiter on `"ready"` with a 1000 ms deadline resolves
with the payload of `"ready"` dispatched at 200 ms, and with nothing
dispatched rejects with `TimeoutError` at 1000 ms. -/
theorem C3_deadline_behavior_witness :
    ((settle (⟨[Binding.resolveB 0 "ready" (fun _ => true)], some 1000,
          none⟩ : WaiterState Nat Nat)
        ([] ++ ⟨200, 0, "ready", 7⟩ :: []) 5000).outcome
      = some (.resolved 7 200))
    ∧ ((settle (⟨[Binding.resolveB 0 "ready" (fun _ => true)], some 1000,
          none⟩ : WaiterState Nat Nat) [] 1000).outcome
      = some (.rejected (.timeoutError 1000) 1000)) :=
  ⟨(C3_deadline_behavior
      ⟨[Binding.resolveB 0 "ready" (fun _ => true)], some 1000, none⟩
      1000 rfl rfl).1 [] [] ⟨200, 0, "ready", 7⟩ 5000 0 "ready"
      (fun _ => true) (by simp) (by decide) rfl,
    (C3_deadline_behavior
      ⟨[Binding.resolveB 0 "ready" (fun _ => true)], some 1000, none⟩
      1000 rfl rfl).2 [] 1000 (by simp) (by decide)⟩

/-- C4: `ElectronApplication.waitForEvent` on an event other than the close
event: when the application's `close` event occurs before the waited event
(only inert events precede it) and before the effective deadline, the wait
rejects with the `TargetClosedError` constructed by the reject-binding's
factory — the reject-binding fires unconditionally, with no predicate, so no
condition on the close event's payload is needed. -/
theorem C4_close_rejects_wait {π : Type} (event : String) (pred : π → Bool)
    (t : Nat) (pre post : List (DEvent π)) (cev : DEvent π)
    (hne : event ≠ ElectronApplication.closeEventName)
    (htg : cev.tgt = ElectronApplication.selfTarget)
    (hnm : cev.name = ElectronApplication.closeEventName)
    (ht : t ≠ 0 → cev.time < t)
    (hpre : ∀ e ∈ pre,
      inert (ElectronApplication.waitForEventWaiter event pred t) e) :
    (runWaiter (ElectronApplication.waitForEventWaiter event pred t)
        (pre ++ cev :: post)).outcome
      = some (.rejected (.factoryError PwError.targetClosedError)
          cev.time) := by
  have hfind : (ElectronApplication.waitForEventWaiter event pred
        t).bindings.find? (fun b => fires b cev)
      = some (.rejectB ElectronApplication.selfTarget
          ElectronApplication.closeEventName PwError.targetClosedError) := by
    simp [ElectronApplication.waitForEventWaiter, if_neg hne, fires, htg, hnm]
  have hdl : ∀ d,
      (ElectronApplication.waitForEventWaiter event pred t).deadline = some d →
        cev.time < d := by
    intro d hdd
    by_cases ht0 : t = 0
    · simp [ElectronApplication.waitForEventWaiter, if_pos ht0] at hdd
    · simp [ElectronApplication.waitForEventWaiter, if_neg ht0] at hdd
      rw [← hdd]
      exact ht ht0
  rw [runWaiter_first_reject rfl hpre hdl hfind]
  rfl

/-- Witness for C4: waiting for `"window"` with a 1000 ms timeout, a `close`
event at 50 ms rejects the wait with `TargetClosedError` even though
`"window"` arrives at 60 ms. -/
theorem C4_close_rejects_wait_witness :
    (runWaiter (ElectronApplication.waitForEventWaiter "window"
        (fun _ : Nat => true) 1000)
        ([] ++ ⟨50, 0, "close", 0⟩ :: [⟨60, 0, "window", 3⟩])).outcome
      = some (.rejected (.factoryError PwError.targetClosedError) 50) :=
  C4_close_rejects_wait "window" (fun _ => true) 1000 [] [⟨60, 0, "window", 3⟩]
    ⟨50, 0, "close", 0⟩ (by decide) rfl rfl (fun _ => by decide) (by simp)

/-- C5: effective-timeout precedence — the explicit per-call override when
present, else the per-object default (inherited from the session default at
creation via `TimeoutSettings.create`), else the process-wide default; in
particular process default 30000 with object default 10000 yields 10000
without an override and 5000 with override 5000. -/
theorem C5_timeout_precedence :
    (∀ (p u t : Nat), TimeoutSettings.timeout ⟨p, some u⟩ (some t) = t)
    ∧ (∀ (p u : Nat), TimeoutSettings.timeout ⟨p, some u⟩ none = u)
    ∧ (∀ (p : Nat), TimeoutSettings.timeout ⟨p, none⟩ none = p)
    ∧ TimeoutSettings.timeout (TimeoutSettings.create 30000 (some 10000)) none
        = 10000
    ∧ TimeoutSettings.timeout (TimeoutSettings.create 30000 (some 10000))
        (some 5000) = 5000 :=
  ⟨fun _ _ _ => rfl, fun _ _ => rfl, fun _ => rfl, rfl, rfl⟩

/-- C7: `ElectronApplication.close` resolves normally whenever the context
close fails with a `TargetClosedError` (the error is swallowed), propagates
any other error unchanged, and resolves normally on success. -/
theorem C7_close_swallows_target_closed :
    ∀ (e : PwError),
      (isTargetClosedError e = true →
        ElectronApplication.closeRun (.error e) = .ok ())
      ∧ (isTargetClosedError e = false →
        ElectronApplication.closeRun (.error e) = .error e)
      ∧ ElectronApplication.closeRun (.ok ()) = .ok () := by
  intro e
  refine ⟨fun h => ?_, fun h => ?_, rfl⟩
  · simp [ElectronApplication.closeRun, h]
  · simp [ElectronApplication.closeRun, h]

/-- Witness for C7 at the two error kinds. -/
theorem C7_close_swallows_target_closed_witness :
    ElectronApplication.closeRun (.error PwError.targetClosedError) = .ok ()
    ∧ ElectronApplication.closeRun (.error (PwError.otherError 3))
        = .error (PwError.otherError 3) :=
  ⟨(C7_close_swallows_target_closed PwError.targetClosedError).1 rfl,
    (C7_close_swallows_target_closed (PwError.otherError 3)).2.1 rfl⟩

/-- C8: resolving the effective timeout is pure and deterministic — for a
fixed settings state and per-call override, an invocation leaves the state
unchanged, and a second invocation from the resulting state returns the same
number of milliseconds and again leaves the state unchanged. -/
theorem C8_timeout_pure :
    ∀ (s : TimeoutSettings) (o : Option Nat),
      (TimeoutSettings.timeoutCall s o).2 = s
      ∧ (TimeoutSettings.timeoutCall
            ((TimeoutSettings.timeoutCall s o).2) o).1
          = (TimeoutSettings.timeoutCall s o).1
      ∧ (TimeoutSettings.timeoutCall
            ((TimeoutSettings.timeoutCall s o).2) o).2 = s :=
  fun _ _ => ⟨rfl, rfl, rfl⟩

/-- C6 counterexample: in `ElectronApplication.waitForEvent`, the explicit
`waiter.dispose()` statement is NOT reached on a rejecting exit path.  With a
100 ms timeout and no events, the wait rejects (result is not `ok`) yet the
dispose flag of the run is `false`, refuting the claim that the dispose
method is invoked on every exit path, in particular on timeout. -/
theorem C6_dispose_cex :
    (ElectronApplication.waitForEventRun "data" (fun _ : Nat => true) 100 []
        100).map (fun r => (r.1.isOk, r.2.2)) = some (false, false) := rfl

/-- C6 (amended): on every exit path of `ElectronApplication.waitForEvent`
no event subscriptions are leaked — the Waiter's final state has all bindings
torn down — but the explicit `waiter.dispose()` statement runs exactly on the
resolving exit path; a rejecting wait leaves the function through the thrown
error after the Waiter has already torn its bindings down at finalization. -/
theorem C6_dispose_amended {π : Type} (event : String) (pred : π → Bool)
    (t : Nat) (tr : List (DEvent π)) (endTime : Nat)
    (r : Except (WaiterError PwError) π × WaiterState π PwError × Bool)
    (h : ElectronApplication.waitForEventRun event pred t tr endTime
      = some r) :
    r.2.1.bindings = [] ∧ r.2.2 = r.1.isOk := by
  have hsealed : ∀ o, (settle (ElectronApplication.waitForEventWaiter event
        pred t) tr endTime).outcome = some o →
      (settle (ElectronApplication.waitForEventWaiter event pred t) tr
        endTime).bindings = [] := by
    intro o ho
    refine settle_sealed (fun hh => ?_) tr endTime (by rw [ho]; rfl)
    have : (ElectronApplication.waitForEventWaiter event pred t).outcome
        = none := rfl
    rw [this] at hh
    simp at hh
  unfold ElectronApplication.waitForEventRun at h
  dsimp only at h
  cases ho : (settle (ElectronApplication.waitForEventWaiter event pred t) tr
      endTime).outcome with
  | none =>
      rw [ho] at h
      cases h
  | some o =>
      rw [ho] at h
      cases o with
      | resolved pay tm =>
          dsimp only at h
          cases h
          exact ⟨rfl, rfl⟩
      | rejected err tm =>
          dsimp only at h
          cases h
          exact ⟨hsealed _ ho, rfl⟩

/-- Witness for C6 (amended) on a resolving run: the Waiter ends with no
bindings and the dispose flag matches the successful result. -/
theorem C6_dispose_amended_witness :
    ((Except.ok 7 : Except (WaiterError PwError) Nat),
        (⟨[], some 100, some (.resolved 7 5)⟩ : WaiterState Nat PwError),
        true).2.1.bindings = []
    ∧ ((Except.ok 7 : Except (WaiterError PwError) Nat),
        (⟨[], some 100, some (.resolved 7 5)⟩ : WaiterState Nat PwError),
        true).2.2
      = ((Except.ok 7 : Except (WaiterError PwError) Nat),
        (⟨[], some 100, some (.resolved 7 5)⟩ : WaiterState Nat PwError),
        true).1.isOk :=
  C6_dispose_amended "data" (fun _ => true) 100 [⟨5, 0, "data", 7⟩] 100
    (.ok 7, ⟨[], some 100, some (.resolved 7 5)⟩, true) rfl

namespace ElectronApplication

lemma closedIn_cons_announced (q : Nat) (rest : List CtxEvent) (p : Nat) :
    closedIn (.pageAnnounced q :: rest) p = closedIn rest p := by
  simp [closedIn]

lemma closedIn_cons_closed (q : Nat) (rest : List CtxEvent) (p : Nat) :
    closedIn (.pageClosed q :: rest) p = (q == p || closedIn rest p) := by
  simp [closedIn]

lemma announcesOf_cons_announced (p : Nat) (rest : List CtxEvent) :
    announcesOf (.pageAnnounced p :: rest) = p :: announcesOf rest := rfl

lemma announcesOf_cons_closed (p : Nat) (rest : List CtxEvent) :
    announcesOf (.pageClosed p :: rest) = announcesOf rest := rfl

lemma not_mem_announcesOf :
    ∀ (tr : List CtxEvent) (ann : List Nat) (p : Nat),
      wfTrace ann tr = true → p ∈ ann → p ∉ announcesOf tr := by
  intro tr
  induction tr with
  | nil => intro ann p _ _; simp [announcesOf]
  | cons e rest ih =>
      intro ann p hwf hp
      cases e with
      | pageAnnounced q =>
          obtain ⟨hq, hrest⟩ : q ∉ ann ∧ wfTrace (ann ++ [q]) rest = true := by
            simpa [wfTrace] using hwf
          rw [announcesOf_cons_announced]
          intro hmem
          rcases List.mem_cons.mp hmem with hpq | hmem'
          · exact hq (hpq ▸ hp)
          · exact ih (ann ++ [q]) p hrest (List.mem_append_left _ hp) hmem'
      | pageClosed q =>
          obtain ⟨_, hrest⟩ : q ∈ ann ∧ wfTrace ann rest = true := by
            simpa [wfTrace] using hwf
          rw [announcesOf_cons_closed]
          exact ih ann p hrest hp

lemma erase_filter_not_or (p : Nat) (c : Nat → Bool) (ws : List Nat)
    (hnd : ws.Nodup) :
    (ws.erase p).filter (fun q => !c q)
      = ws.filter (fun q => !(p == q || c q)) := by
  rw [hnd.erase_eq_filter, List.filter_filter]
  apply List.filter_congr
  intro q hq
  by_cases h : q = p
  · subst h
    simp
  · have h1 : (q != p) = true := bne_iff_ne.mpr h
    have h2 : (p == q) = false := beq_eq_false_iff_ne.mpr (Ne.symm h)
    rw [h1, h2]
    simp

lemma foldl_stepApp_char :
    ∀ (tr : List CtxEvent) (ws ann log : List Nat),
      wfTrace ann tr = true → ws ⊆ ann → ws.Nodup →
      (tr.foldl stepApp ⟨ws, log⟩).windows
          = (ws ++ announcesOf tr).filter (fun p => !closedIn tr p)
        ∧ (tr.foldl stepApp ⟨ws, log⟩).windowEvents = log ++ announcesOf tr := by
  intro tr
  induction tr with
  | nil =>
      intro ws ann log _ _ _
      constructor
      · simp [announcesOf, closedIn]
      · simp [announcesOf]
  | cons e rest ih =>
      intro ws ann log hwf hsub hnd
      cases e with
      | pageAnnounced p =>
          obtain ⟨hp, hrest⟩ : p ∉ ann ∧ wfTrace (ann ++ [p]) rest = true := by
            simpa [wfTrace] using hwf
          have hpw : p ∉ ws := fun hmem => hp (hsub hmem)
          have hstep : stepApp ⟨ws, log⟩ (.pageAnnounced p)
              = ⟨ws ++ [p], log ++ [p]⟩ := by
            simp [stepApp, onPage, setAdd, hpw]
          have hsub' : ws ++ [p] ⊆ ann ++ [p] := by
            intro q hq
            rcases List.mem_append.mp hq with hq' | hq'
            · exact List.mem_append_left _ (hsub hq')
            · exact List.mem_append_right _ hq'
          have hnd' : (ws ++ [p]).Nodup := by
            refine List.Nodup.append hnd (List.nodup_singleton p) ?_
            intro a ha hb
            rw [List.mem_singleton] at hb
            exact hpw (hb ▸ ha)
          have := ih (ws ++ [p]) (ann ++ [p]) (log ++ [p]) hrest hsub' hnd'
          show ((rest.foldl stepApp (stepApp ⟨ws, log⟩ (.pageAnnounced p))).windows = _)
            ∧ ((rest.foldl stepApp (stepApp ⟨ws, log⟩ (.pageAnnounced p))).windowEvents = _)
          rw [hstep]
          constructor
          · rw [this.1, announcesOf_cons_announced]
            have hcong : (fun q => !closedIn (CtxEvent.pageAnnounced p :: rest) q)
                = fun q => !closedIn rest q := by
              funext q
              rw [closedIn_cons_announced]
            rw [hcong, List.append_assoc, List.singleton_append]
          · rw [this.2, announcesOf_cons_announced, List.append_assoc,
              List.singleton_append]
      | pageClosed p =>
          obtain ⟨hp, hrest⟩ : p ∈ ann ∧ wfTrace ann rest = true := by
            simpa [wfTrace] using hwf
          have hstep : stepApp ⟨ws, log⟩ (.pageClosed p)
              = ⟨ws.erase p, log⟩ := rfl
          have hsub' : ws.erase p ⊆ ann :=
            fun q hq => hsub (List.erase_subset p ws hq)
          have := ih (ws.erase p) ann log hrest hsub' (hnd.erase p)
          show ((rest.foldl stepApp (stepApp ⟨ws, log⟩ (.pageClosed p))).windows = _)
            ∧ ((rest.foldl stepApp (stepApp ⟨ws, log⟩ (.pageClosed p))).windowEvents = _)
          rw [hstep]
          constructor
          · rw [this.1, announcesOf_cons_closed]
            have hcong : (fun q => !closedIn (CtxEvent.pageClosed p :: rest) q)
                = fun q => !(p == q || closedIn rest q) := by
              funext q
              rw [closedIn_cons_closed]
            rw [hcong, List.filter_append, List.filter_append,
              erase_filter_not_or p (fun q => closedIn rest q) ws hnd]
            have hfresh : p ∉ announcesOf rest :=
              not_mem_announcesOf rest ann p hrest hp
            have : (announcesOf rest).filter (fun q => !closedIn rest q)
                = (announcesOf rest).filter
                    (fun q => !(p == q || closedIn rest q)) := by
              apply List.filter_congr
              intro q hq
              have hqp : q ≠ p := fun h => hfresh (h ▸ hq)
              simp [Ne.symm hqp]
            rw [this]
          · rw [this.2, announcesOf_cons_closed]

end ElectronApplication

namespace ElectronApplication

lemma ctorState_eq_foldl (init : List Nat) :
    ctorState init = (init.map CtxEvent.pageAnnounced).foldl stepApp ⟨[], []⟩ := by
  unfold ctorState
  rw [List.foldl_map]
  rfl

lemma runApp_eq_foldl (init : List Nat) (tr : List CtxEvent) :
    runApp init tr
      = (init.map CtxEvent.pageAnnounced ++ tr).foldl stepApp ⟨[], []⟩ := by
  unfold runApp
  rw [ctorState_eq_foldl, List.foldl_append]

lemma wfTrace_map_announced :
    ∀ (init ann : List Nat) (tr : List CtxEvent),
      (ann ++ init).Nodup → wfTrace (ann ++ init) tr = true →
      wfTrace ann (init.map CtxEvent.pageAnnounced ++ tr) = true := by
  intro init
  induction init with
  | nil =>
      intro ann tr hnd hwf
      simpa using hwf
  | cons p rest ih =>
      intro ann tr hnd hwf
      rw [List.map_cons, List.cons_append]
      have hp : p ∉ ann := by
        rcases List.nodup_append.mp hnd with ⟨_, _, hdij⟩
        intro hmem
        exact hdij hmem (List.mem_cons_self p rest)
      have hacc : ann ++ p :: rest = (ann ++ [p]) ++ rest := by
        rw [List.append_assoc, List.singleton_append]
      rw [hacc] at hnd hwf
      show wfTrace ann
        (.pageAnnounced p :: (rest.map CtxEvent.pageAnnounced ++ tr)) = true
      have hrec := ih (ann ++ [p]) tr hnd hwf
      simp [wfTrace, hp, hrec]

lemma announcesOf_map_announced :
    ∀ (l : List Nat), announcesOf (l.map CtxEvent.pageAnnounced) = l := by
  intro l
  induction l with
  | nil => rfl
  | cons p rest ih =>
      rw [List.map_cons, announcesOf_cons_announced, ih]

lemma closedIn_append (a b : List CtxEvent) (p : Nat) :
    closedIn (a ++ b) p = (closedIn a p || closedIn b p) := by
  simp [closedIn]

lemma closedIn_map_announced (l : List Nat) (p : Nat) :
    closedIn (l.map CtxEvent.pageAnnounced) p = false := by
  induction l with
  | nil => rfl
  | cons q rest ih =>
      rw [List.map_cons, closedIn_cons_announced]
      exact ih

lemma windows_char (init : List Nat) (tr : List CtxEvent)
    (hnd : init.Nodup) (hwf : wfTrace init tr = true) :
    (runApp init tr).windows
        = (announcedList init tr).filter (fun p => !closedIn tr p)
      ∧ (runApp init tr).windowEvents = announcedList init tr := by
  have hwf' : wfTrace [] (init.map CtxEvent.pageAnnounced ++ tr) = true :=
    wfTrace_map_announced init [] tr (by simpa) (by simpa)
  have hchar := foldl_stepApp_char (init.map CtxEvent.pageAnnounced ++ tr)
    [] [] [] hwf' (by simp) List.nodup_nil
  have hann : announcesOf (init.map CtxEvent.pageAnnounced ++ tr)
      = init ++ announcesOf tr := by
    have h1 : announcesOf (init.map CtxEvent.pageAnnounced ++ tr)
        = announcesOf (init.map CtxEvent.pageAnnounced) ++ announcesOf tr := by
      simp [announcesOf, List.filterMap_append]
    rw [h1, announcesOf_map_announced]
  rw [runApp_eq_foldl]
  constructor
  · rw [hchar.1]
    have hpred : (fun p => !closedIn (init.map CtxEvent.pageAnnounced ++ tr) p)
        = fun p => !closedIn tr p := by
      funext p
      rw [closedIn_append, closedIn_map_announced]
      simp
    rw [hpred, List.nil_append, hann]
    rfl
  · rw [hchar.2, List.nil_append, hann]
    rfl

end ElectronApplication

/-- C10: at all times the application's window set contains exactly the
announced pages (present at construction or delivered by the context's page
event) that have not emitted their close event, in announcement order —
`windows()` returns exactly these — and one `window` event has been emitted
per announcement; a page's close event removes exactly its single occurrence
from the set. -/
theorem C10_window_set_invariant (init : List Nat)
    (tr : List ElectronApplication.CtxEvent) (hnd : init.Nodup)
    (hwf : ElectronApplication.wfTrace init tr = true) :
    (ElectronApplication.runApp init tr).windows
        = (ElectronApplication.announcedList init tr).filter
            (fun p => !ElectronApplication.closedIn tr p)
      ∧ (ElectronApplication.runApp init tr).windowEvents
          = ElectronApplication.announcedList init tr :=
  ElectronApplication.windows_char init tr hnd hwf

/-- Witness for C10: one initial page, a second page announced, the first
page closed — the window set is exactly the second page and a window event
was emitted for both announcements. -/
theorem C10_window_set_invariant_witness :
    (ElectronApplication.runApp [1]
        [.pageAnnounced 2, .pageClosed 1]).windows
        = (ElectronApplication.announcedList [1]
            [.pageAnnounced 2, .pageClosed 1]).filter
            (fun p => !ElectronApplication.closedIn
              [.pageAnnounced 2, .pageClosed 1] p)
      ∧ (ElectronApplication.runApp [1]
          [.pageAnnounced 2, .pageClosed 1]).windowEvents
          = ElectronApplication.announcedList [1]
              [.pageAnnounced 2, .pageClosed 1] :=
  C10_window_set_invariant [1] [.pageAnnounced 2, .pageClosed 1]
    (by simp) (by decide)

/-- C9: `firstWindow` with a non-empty window set immediately returns the
earliest-added open window — the head of the announced-and-not-closed list —
whatever the timeout options (no Waiter is created, no timeout consulted);
with an empty window set it delegates exactly to `waitForEvent` on `"window"`
with the given options. -/
theorem C9_firstWindow_behavior (init : List Nat)
    (tr : List ElectronApplication.CtxEvent) (options : Option Nat)
    (hnd : init.Nodup)
    (hwf : ElectronApplication.wfTrace init tr = true) :
    (∀ (p : Nat) (rest : List Nat),
        (ElectronApplication.announcedList init tr).filter
            (fun q => !ElectronApplication.closedIn tr q) = p :: rest →
        ∀ (o2 : Option Nat),
          ElectronApplication.firstWindow (ElectronApplication.runApp init tr)
            o2 = .immediate p)
    ∧ ((ElectronApplication.announcedList init tr).filter
          (fun q => !ElectronApplication.closedIn tr q) = [] →
        ElectronApplication.firstWindow (ElectronApplication.runApp init tr)
          options = .delegated "window" options) := by
  have hw := (ElectronApplication.windows_char init tr hnd hwf).1
  constructor
  · intro p rest hfil o2
    unfold ElectronApplication.firstWindow
    rw [hw, hfil]
  · intro hfil
    unfold ElectronApplication.firstWindow
    rw [hw, hfil]

/-- Witness for C9: with one open window the result is immediate and ignores
the options; with no windows the call delegates to `waitForEvent "window"`
with the given options. -/
theorem C9_firstWindow_behavior_witness :
    ElectronApplication.firstWindow (ElectronApplication.runApp [1] []) none
        = .immediate 1
    ∧ ElectronApplication.firstWindow (ElectronApplication.runApp [] [])
        (some 5) = .delegated "window" (some 5) :=
  ⟨(C9_firstWindow_behavior [1] [] none (by simp) rfl).1 1 [] (by decide) none,
    (C9_firstWindow_behavior [] [] (some 5) (by simp) rfl).2 rfl⟩
